import Mathlib

/-!
Verification development for the object-detection-hub video pipeline.

The definitions below are a shallow embedding of `src/detector/video.py`
(`process_video`) and `src/detector/visualize.py` (`draw_detections_bgr`,
`_draw_legend`, `_color_for_class`).  Python `float` values are modelled as
`Rat`; Python `int` as `Int` (or `Nat` where the code guarantees
non-negativity); Python lists/dicts as Lean lists (a `dict` is an
insertion-ordered association list, matching CPython 3.7+ semantics).
External capabilities (OpenCV decode/encode, the YOLO detector, ffmpeg,
`colorsys`, `hashlib`, text metrics, float formatting) are inputs of the
model: they are passed in as explicit function arguments, so that every
definition stays executable.
-/

set_option linter.unusedVariables false

/-- Structure `Detection` from `src/detector/types.py` (a frozen dataclass):
class id, class name, confidence and absolute-pixel box corners.
Python floats are modelled as `Rat`. -/
structure Detection where
  class_id : Int
  class_name : String
  confidence : Rat
  x1 : Rat
  y1 : Rat
  x2 : Rat
  y2 : Rat
deriving DecidableEq

namespace Video

/-- One entry of the `per_frame` list built at `video.py` lines 61-67.
In the Python code this is a dict `{"frame_index": .., "timestamp_s": ..,
"detections": [asdict(d) ..]}`; `asdict` is a field-wise isomorphism on
`Detection`, so `detections` is modelled as the detection list itself. -/
structure FrameRecord where
  frame_index : Nat
  timestamp_s : Rat
  detections : List Detection
deriving DecidableEq

/-- The `meta` dict assembled at `video.py` lines 112-120. -/
structure VideoMeta where
  fps : Rat
  width : Int
  height : Int
  total_frames : Int
  frames_read : Nat
  frame_step : Nat
  sampled_frames : Nat
deriving DecidableEq

/-- State of the decode loop when it terminates: the counters and
accumulators of `video.py` lines 47-50 plus the frames handed to
`writer.write` (line 70), in order. -/
structure LoopOut (F : Type) where
  frame_idx : Nat
  sampled : Nat
  per_frame : List FrameRecord
  flat : List Detection
  written : List F
deriving DecidableEq

/-- The `while True` decode loop of `process_video` (`video.py` lines
52-73), one constructor case per frame read from the capture.  `F` is the
type of decoded frames; `predict_image` models
`detector.predict_image(frame, conf=conf)` and `draw` models
`draw_detections_bgr`.  `frame_step` is the already-clamped stride (line
23) and `max_frames` the raw caller-supplied bound.  The two branches of
the sampling `if` share the trailing `writer.write(frame)`,
`frame_idx += 1` and `max_frames` cutoff exactly as in the source; the
tail is duplicated here only to keep the recursion first-order. -/
def processLoop {F : Type} (predict_image : F → Rat → List Detection)
    (draw : F → List Detection → F) (conf : Rat) (fps : Rat)
    (frame_step : Nat) (max_frames : Int) :
    List F → Nat → Nat → List FrameRecord → List Detection → List F → LoopOut F
  | [], frame_idx, sampled, per_frame, flat, written =>
      ⟨frame_idx, sampled, per_frame, flat, written⟩
  | frame :: rest, frame_idx, sampled, per_frame, flat, written =>
      if frame_idx % frame_step == 0 then
        let dets := predict_image frame conf
        let flat' := flat ++ dets
        let sampled' := sampled + 1
        let per_frame' := per_frame ++
          [⟨frame_idx, if fps ≠ 0 then (frame_idx : Rat) / fps else 0, dets⟩]
        let frame' := draw frame dets
        let written' := written ++ [frame']
        let frame_idx' := frame_idx + 1
        if max_frames ≠ 0 ∧ max_frames ≤ (frame_idx' : Int) then
          ⟨frame_idx', sampled', per_frame', flat', written'⟩
        else
          processLoop predict_image draw conf fps frame_step max_frames
            rest frame_idx' sampled' per_frame' flat' written'
      else
        let written' := written ++ [frame]
        let frame_idx' := frame_idx + 1
        if max_frames ≠ 0 ∧ max_frames ≤ (frame_idx' : Int) then
          ⟨frame_idx', sampled, per_frame, flat, written'⟩
        else
          processLoop predict_image draw conf fps frame_step max_frames
            rest frame_idx' sampled per_frame flat written'

/-- The three `raise ValueError` sites of `process_video`:
line 26 (`Failed to open video`), line 36 (`Failed to read frames from
video`, raised while probing dimensions) and line 45
(`Failed to open video writer`). -/
inductive PipeError
  | openError
  | readError
  | writerError
deriving DecidableEq

/-- Which handles were opened/released during an invocation.  `cv2`
handles are released only by the explicit `cap.release()` /
`writer.release()` calls at `video.py` lines 75-76 (there is no
`try/finally` in the function). -/
structure Handles where
  capOpened : Bool
  capReleased : Bool
  writerOpened : Bool
  writerReleased : Bool
deriving DecidableEq

/-- The two filesystem slots the transcode block touches:
`raw_path = output_path.with_suffix(".raw.mp4")` and `output_path`.
`with_suffix(".raw.mp4")` always yields a path different from
`output_path`, so the two are distinct slots.  A file is its byte
content. -/
structure FSState where
  raw : Option (List Nat)
  out : Option (List Nat)
deriving DecidableEq

/-- The transcode-or-fallback block of `process_video` (`video.py` lines
81-110).  `ffmpegOk = true` models the `subprocess.run(.., check=True)`
call succeeding, in which case ffmpeg (`-y`) overwrites `output_path`
with the transcoded bytes; `ffmpegOk = false` models any exception in the
`try` body (tool missing, crash, non-zero exit), leaving `output_path`
untouched.  The `except` branch renames `raw_path` onto `output_path`
only when the former exists and the latter does not; the `finally` branch
deletes `raw_path` when it still exists (it is never equal to
`output_path`). -/
def transcodeStep (transcodeBytes : List Nat → List Nat) (ffmpegOk : Bool)
    (fs : FSState) : FSState :=
  let fs1 :=
    if ffmpegOk then
      { fs with out := some (transcodeBytes (fs.raw.getD [])) }
    else
      if fs.raw.isSome && !fs.out.isSome then
        { raw := none, out := fs.raw }
      else
        fs
  if fs1.raw.isSome then { fs1 with raw := none } else fs1

/-- A video container as `cv2.VideoCapture` exposes it: whether it opens,
the header-reported fps / width / height / frame count (`or 0` defaults
already applied, so a missing property reads as `0`), and the sequence of
frames that successive `cap.read()` calls decode. -/
structure VideoFile (F : Type) where
  opens : Bool
  fps0 : Rat
  width0 : Int
  height0 : Int
  total0 : Int
  frames : List F
deriving DecidableEq

/-- Function `process_video` from `src/detector/video.py` (lines 12-121).

Model inputs standing for external behaviour:
* `shape f` is `frame.shape[:2]`, i.e. `(height, width)` of frame `f`;
* `encodeVideo ws` is the byte content `cv2.VideoWriter` leaves in
  `raw_path` after writing the frames `ws` and releasing;
* `transcodeBytes` is ffmpeg's output on success;
* `preOut` is the content of `output_path` before the invocation
  (`none` if absent);
* `writerOpens` is `writer.isOpened()`; `ffmpegOk` as in
  `transcodeStep`.

The probe at lines 33-38 reads one frame when the header reports a
non-positive dimension, takes `height, width = frame.shape[:2]`, and
rewinds to frame 0 (so the main loop still sees `v.frames` from the
start).  The result pairs the returned value (or raised error) with the
handle ledger. -/
def process_video {F : Type} (predict_image : F → Rat → List Detection)
    (draw : F → List Detection → F) (shape : F → Nat × Nat)
    (encodeVideo : List F → List Nat) (transcodeBytes : List Nat → List Nat)
    (v : VideoFile F) (preOut : Option (List Nat))
    (writerOpens : Bool) (ffmpegOk : Bool)
    (conf : Rat) (frame_step : Int) (max_frames : Int) :
    Except PipeError (VideoMeta × List Detection × List FrameRecord × FSState)
      × Handles :=
  let fstep : Nat := (max 1 frame_step).toNat
  if v.opens = false then
    (.error .openError, ⟨false, false, false, false⟩)
  else
    let fps := if v.fps0 ≠ 0 then v.fps0 else 25
    let dims : Except PipeError (Int × Int) :=
      if v.width0 ≤ 0 ∨ v.height0 ≤ 0 then
        match v.frames with
        | [] => .error .readError
        | f :: _ => .ok (((shape f).2 : Int), ((shape f).1 : Int))
      else
        .ok (v.width0, v.height0)
    match dims with
    | .error e => (.error e, ⟨true, false, false, false⟩)
    | .ok (width, height) =>
      if writerOpens = false then
        (.error .writerError, ⟨true, false, false, false⟩)
      else
        let r := processLoop predict_image draw conf fps fstep max_frames
          v.frames 0 0 [] [] []
        let fs0 : FSState := { raw := some (encodeVideo r.written), out := preOut }
        let fs := transcodeStep transcodeBytes ffmpegOk fs0
        let meta : VideoMeta :=
          ⟨fps, width, height, v.total0, r.frame_idx, fstep, r.sampled⟩
        (.ok (meta, r.flat, r.per_frame, fs), ⟨true, true, true, true⟩)

/-- A sample detection used to evaluate the model on concrete inputs. -/
def wDet : Detection := ⟨0, "obj", 1/2, 0, 0, 1, 1⟩

/-- A detector stub returning one detection per sampled frame. -/
def wPredict : Unit → Rat → List Detection := fun _ _ => [wDet]

/-- An annotator stub (frames carry no content in these evaluations). -/
def wDraw : Unit → List Detection → Unit := fun f _ => f

/-- Stub for `frame.shape[:2]`: 1×1 frames. -/
def wShape : Unit → Nat × Nat := fun _ => (1, 1)

/-- Writer-output stub: the container always holds one byte. -/
def wEncode : List Unit → List Nat := fun _ => [1]

/-- An `n`-frame, 25 fps, 1×1 test container that opens normally. -/
def wVideo (n : Nat) : VideoFile Unit := ⟨true, 25, 1, 1, 0, List.replicate n ()⟩

end Video

namespace Visualize

/-- Python `int(x)` on a float: truncation toward zero. -/
def pyInt (q : Rat) : Int :=
  if q < 0 then q.ceil else q.floor

/-- Python `x % 1.0` for the non-negative modulus `1.0`: the result is in
`[0, 1)`, i.e. `x - floor x`. -/
def fmod1 (q : Rat) : Rat :=
  q - (q.floor : Rat)

/-- A BGR color triple, as built by `_color_for_class`. -/
abbrev Color := Int × Int × Int

/-- The external capabilities `visualize.py` calls out to:
`colorsys.hsv_to_rgb` (stdlib float math), the first 8 hex digits of
`hashlib.md5(name).hexdigest()` read as an integer, `cv2.getTextSize`
(label, fontScale, thickness), and Python `f"{x:.2f}"` float
formatting. -/
structure Ext where
  hsv_to_rgb : Rat → Rat → Rat → Rat × Rat × Rat
  md5hex8 : String → Nat
  getTextSize : String → Rat → Int → (Int × Int) × Int
  fmt2 : Rat → String

/-- Function `_color_for_class` (`visualize.py` lines 11-18): golden-ratio hue
spread, saturation 0.85, value 0.95, returned as BGR bytes. -/
def _color_for_class (E : Ext) (class_id : Int) : Color :=
  let h := fmod1 ((class_id : Rat) * 0.61803398875)
  let rgb := E.hsv_to_rgb h 0.85 0.95
  (pyInt (rgb.2.2 * 255), pyInt (rgb.2.1 * 255), pyInt (rgb.1 * 255))

/-- A numpy image as a history of the mutations `visualize.py` performs
on it: the base array (its identity and `shape[:2]`), `cv2.rectangle`,
`cv2.putText` (string, origin, fontScale, color, thickness; the font is
always `FONT_HERSHEY_SIMPLEX`) and `cv2.addWeighted(src1, a, src2, b, g)`.
Structural equality of two `Img` values implies byte-identical pixel
contents. -/
inductive Img : Type
  | base (id : Nat) (height : Nat) (width : Nat) : Img
  | rect (i : Img) (p1 p2 : Int × Int) (color : Color) (thickness : Int) : Img
  | text (i : Img) (s : String) (org : Int × Int) (fontScale : Rat)
      (color : Color) (thickness : Int) : Img
  | blend (src1 : Img) (a : Rat) (src2 : Img) (b : Rat) (g : Rat) : Img
deriving DecidableEq

instance : Inhabited Img := ⟨.base 0 0 0⟩

/-- The `shape[:2]` of an image: `(height, width)`; drawing preserves it, a
blend has the shape of its first source. -/
def Img.shape : Img → Nat × Nat
  | .base _ h w => (h, w)
  | .rect i _ _ _ _ => i.shape
  | .text i _ _ _ _ _ => i.shape
  | .blend s1 _ _ _ _ => s1.shape

/-- The live numpy arrays of one `draw_detections_bgr` call; an array is
referred to by its index.  `ndarray.copy()` allocates a fresh array at
the end of the heap. -/
abbrev Heap := List Img

/-- Model of `a.copy()`: allocate a fresh array with the same content. -/
def Heap.copy (h : Heap) (i : Nat) : Heap × Nat :=
  (h ++ [h.getD i default], h.length)

/-- In-place `cv2.rectangle(buf, p1, p2, color, thickness)`. -/
def cvRectangle (h : Heap) (i : Nat) (p1 p2 : Int × Int) (c : Color)
    (t : Int) : Heap :=
  h.set i (.rect (h.getD i default) p1 p2 c t)

/-- In-place `cv2.putText(buf, s, org, FONT_HERSHEY_SIMPLEX, fontScale,
color, thickness)`. -/
def cvPutText (h : Heap) (i : Nat) (s : String) (org : Int × Int)
    (fontScale : Rat) (c : Color) (t : Int) : Heap :=
  h.set i (.text (h.getD i default) s org fontScale c t)

/-- Model of `dst[:] = cv2.addWeighted(src1, a, src2, b, g)`: overwrite `dst` with
the blend of the current contents of `src1` and `src2`. -/
def cvAddWeighted (h : Heap) (dst : Nat) (s1 : Nat) (a : Rat) (s2 : Nat)
    (b : Rat) (g : Rat) : Heap :=
  h.set dst (.blend (h.getD s1 default) a (h.getD s2 default) b g)

/-- Lookup `m.get(k, d)` on an insertion-ordered dict. -/
def dictGet {A : Type} (m : List (String × A)) (k : String) (d : A) : A :=
  match m with
  | [] => d
  | (k', v) :: rest => if k' = k then v else dictGet rest k d

/-- Membership test `k in m` on a dict. -/
def dictMem {A : Type} (m : List (String × A)) (k : String) : Bool :=
  m.any (fun p => p.1 == k)

/-- Update `m[k] = m.get(k, 0) + 1`: increment in place (CPython keeps the
key's insertion position), append `(k, 1)` when absent. -/
def bumpCount (m : List (String × Nat)) (k : String) : List (String × Nat) :=
  match m with
  | [] => [(k, 1)]
  | (k', v) :: rest =>
      if k' = k then (k', v + 1) :: rest else (k', v) :: bumpCount rest k

/-- Model of `m.setdefault(k, v)`: keep an existing binding, append when absent. -/
def setdefault {A : Type} (m : List (String × A)) (k : String) (v : A) :
    List (String × A) :=
  match m with
  | [] => [(k, v)]
  | (k', v') :: rest =>
      if k' = k then (k', v') :: rest else (k', v') :: setdefault rest k v

/-- The key function of `visualize.py` line 81 turned into a Boolean
`≤`: Python sorts ascending by `(-count, name)`, i.e. `a` comes before
`b` iff `count b < count a`, ties broken by ascending name. -/
def legendKeyLE (counts : List (String × Nat)) (a b : String) : Bool :=
  decide (dictGet counts b 0 < dictGet counts a 0) ||
    (dictGet counts a 0 == dictGet counts b 0 && decide (a ≤ b))

/-- The `for name in class_names` loop of `_draw_legend` (`visualize.py`
lines 45-56): per name, a filled 14-px swatch in the class color (falling
back to an md5-derived color for names without one) and the text
`"{name}: {count}"`, advancing `y` by `line_h = 22`. -/
def legendRows (E : Ext) (out : Nat) (counts : List (String × Nat))
    (colors : List (String × Color)) (x1 pad line_h : Int) :
    Heap → List String → Int → Heap
  | h, [], _ => h
  | h, name :: rest, y =>
      let color :=
        if !colors.isEmpty && dictMem colors name then
          dictGet colors name (0, 0, 0)
        else
          _color_for_class E ((E.md5hex8 name % 1000 : Nat) : Int)
      let h := cvRectangle h out (x1 + pad, y - 12) (x1 + pad + 14, y + 2)
        color (-1)
      let txt := name ++ ": " ++ toString (dictGet counts name 0)
      let h := cvPutText h out txt (x1 + pad + 22, y) 0.55 (15, 23, 42) 2
      legendRows E out counts colors x1 pad line_h h rest (y + line_h)

/-- Function `_draw_legend` (`visualize.py` lines 21-56): computes the top-right
panel geometry from the image shape, blends a white panel at 75% opacity
into `out` via an overlay copy, draws the panel border, then the rows. -/
def _draw_legend (E : Ext) (h : Heap) (out : Nat) (class_names : List String)
    (counts : List (String × Nat)) (colors : List (String × Color)) : Heap :=
  if class_names.isEmpty then h
  else
    let pad : Int := 10
    let line_h : Int := 22
    let box_w : Int := 220
    let box_h : Int := pad * 2 + line_h * (class_names.length : Int)
    let hw := (h.getD out default).shape
    let x2 : Int := (hw.2 : Int) - 10
    let y1 : Int := 10
    let x1 : Int := max 10 (x2 - box_w)
    let y2 : Int := min ((hw.1 : Int) - 10) (y1 + box_h)
    let co := Heap.copy h out
    let h := co.1
    let overlay := co.2
    let h := cvRectangle h overlay (x1, y1) (x2, y2) (255, 255, 255) (-1)
    let h := cvAddWeighted h out overlay 0.75 out 0.25 0
    let h := cvRectangle h out (x1, y1) (x2, y2) (203, 213, 225) 1
    let y : Int := y1 + pad + 16
    legendRows E out counts colors x1 pad line_h h class_names y

/-- The `for det in detections` loop of `draw_detections_bgr`
(`visualize.py` lines 66-76): per detection, record the class color and
count, draw the box, the filled label background and the label text
`"{class_name} {confidence:.2f}"`. -/
def drawBoxes (E : Ext) (out : Nat) :
    Heap → List Detection → List (String × Nat) → List (String × Color) →
    Heap × List (String × Nat) × List (String × Color)
  | h, [], counts, colors => (h, counts, colors)
  | h, det :: rest, counts, colors =>
      let x1 := pyInt det.x1
      let y1 := pyInt det.y1
      let x2 := pyInt det.x2
      let y2 := pyInt det.y2
      let color := _color_for_class E det.class_id
      let colors := setdefault colors det.class_name color
      let counts := bumpCount counts det.class_name
      let h := cvRectangle h out (x1, y1) (x2, y2) color 2
      let label := det.class_name ++ " " ++ E.fmt2 det.confidence
      let ts := E.getTextSize label 0.6 2
      let tw := ts.1.1
      let th := ts.1.2
      let baseline := ts.2
      let h := cvRectangle h out (x1, max 0 (y1 - th - baseline - 6))
        (x1 + tw + 6, y1) color (-1)
      let h := cvPutText h out label (x1 + 3, y1 - 4) 0.6 (0, 0, 0) 2
      drawBoxes E out h rest counts colors

/-- The class-count dict that the detection loop leaves behind (used to
state properties of the legend ordering). -/
def classCountsOf (dets : List Detection) : List (String × Nat) :=
  dets.foldl (fun m d => bumpCount m d.class_name) []

/-- The first-seen class-color dict the detection loop leaves behind. -/
def classColorsOf (E : Ext) (dets : List Detection) : List (String × Color) :=
  dets.foldl (fun m d => setdefault m d.class_name (_color_for_class E d.class_id)) []

/-- Lines 81-82 of `visualize.py`: the legend names, i.e. the count-dict
keys sorted by `(-count, name)` (Python's stable sort; the key order is
total and injective on distinct keys), truncated to the first 12. -/
def legendNames (dets : List Detection) : List String :=
  (((classCountsOf dets).map Prod.fst).mergeSort
    (legendKeyLE (classCountsOf dets))).take 12

/-- Function `draw_detections_bgr` (`visualize.py` lines 59-83): copy the input
array, draw all boxes, then — when any detections were counted — the
legend for the up-to-12 most frequent classes; return the copy. -/
def draw_detections_bgr (E : Ext) (h : Heap) (image_bgr : Nat)
    (detections : List Detection) : Heap × Nat :=
  let co := Heap.copy h image_bgr
  let h := co.1
  let out := co.2
  let r := drawBoxes E out h detections [] []
  let h := r.1
  let class_counts := r.2.1
  let class_colors := r.2.2
  if class_counts.isEmpty then
    (h, out)
  else
    let names := (class_counts.map Prod.fst).mergeSort (legendKeyLE class_counts)
    (_draw_legend E h out (names.take 12) class_counts class_colors, out)

/-- Concrete external-capability stub used to evaluate the annotator
model on explicit inputs. -/
def wExt : Ext :=
  ⟨fun a b c => (a, b, c), fun _ => 0, fun _ _ _ => ((10, 8), 2), fun _ => "0.50"⟩

/-- Observer: the strings drawn by `cv2.putText` after the most recent
blend in an image's history (for the legend, exactly the row texts). -/
def Img.spineTexts : Img → List String
  | .base _ _ _ => []
  | .rect i _ _ _ _ => i.spineTexts
  | .text i s _ _ _ _ => i.spineTexts ++ [s]
  | .blend _ _ _ _ _ => []

/-- Observer: the colors of filled rectangles (`thickness = -1`) drawn
after the most recent blend (for the legend, exactly the swatches). -/
def Img.spineSwatches : Img → List Color
  | .base _ _ _ => []
  | .rect i _ _ c t => i.spineSwatches ++ (if t = -1 then [c] else [])
  | .text i _ _ _ _ _ => i.spineSwatches
  | .blend _ _ _ _ _ => []

end Visualize

namespace Video

theorem processLoop_nil {F : Type} (predict : F → Rat → List Detection)
    (draw : F → List Detection → F) (conf fps : Rat) (fs : Nat) (N : Int)
    (i s : Nat) (pf : List FrameRecord) (fl : List Detection) (w : List F) :
    processLoop predict draw conf fps fs N [] i s pf fl w = ⟨i, s, pf, fl, w⟩ :=
  rfl

theorem processLoop_cons_sampled {F : Type} (predict : F → Rat → List Detection)
    (draw : F → List Detection → F) (conf fps : Rat) (fs : Nat) (N : Int)
    (f : F) (rest : List F) (i s : Nat) (pf : List FrameRecord)
    (fl : List Detection) (w : List F) (h : (i % fs == 0) = true) :
    processLoop predict draw conf fps fs N (f :: rest) i s pf fl w =
      if N ≠ 0 ∧ N ≤ ((i + 1 : Nat) : Int) then
        (⟨i + 1, s + 1,
          pf ++ [⟨i, if fps ≠ 0 then (i : Rat) / fps else 0, predict f conf⟩],
          fl ++ predict f conf, w ++ [draw f (predict f conf)]⟩ : LoopOut F)
      else
        processLoop predict draw conf fps fs N rest (i + 1) (s + 1)
          (pf ++ [⟨i, if fps ≠ 0 then (i : Rat) / fps else 0, predict f conf⟩])
          (fl ++ predict f conf) (w ++ [draw f (predict f conf)]) := by
  simp only [processLoop, h, if_true]

theorem processLoop_cons_unsampled {F : Type} (predict : F → Rat → List Detection)
    (draw : F → List Detection → F) (conf fps : Rat) (fs : Nat) (N : Int)
    (f : F) (rest : List F) (i s : Nat) (pf : List FrameRecord)
    (fl : List Detection) (w : List F) (h : (i % fs == 0) = false) :
    processLoop predict draw conf fps fs N (f :: rest) i s pf fl w =
      if N ≠ 0 ∧ N ≤ ((i + 1 : Nat) : Int) then
        (⟨i + 1, s, pf, fl, w ++ [f]⟩ : LoopOut F)
      else
        processLoop predict draw conf fps fs N rest (i + 1) s pf fl (w ++ [f]) := by
  simp only [processLoop, h, Bool.false_eq_true, if_false]

/-- The inductive invariant of the decode loop, stated of a loop state:
the sampled counter counts the `FrameRecord`s, the flat list is the
concatenation of the per-record detections, every decoded frame was
written, and the recorded indices are exactly the multiples of the stride
below the decode counter. -/
def LoopInv {F : Type} (fs : Nat) (r : LoopOut F) : Prop :=
  r.sampled = r.per_frame.length ∧
  r.flat = (r.per_frame.map FrameRecord.detections).flatten ∧
  r.written.length = r.frame_idx ∧
  r.per_frame.map FrameRecord.frame_index =
    (List.range r.frame_idx).filter (fun j => j % fs == 0)

theorem processLoop_inv {F : Type} (predict : F → Rat → List Detection)
    (draw : F → List Detection → F) (conf fps : Rat) (fs : Nat) (N : Int) :
    ∀ (frames : List F) (i s : Nat) (pf : List FrameRecord)
      (fl : List Detection) (w : List F),
      LoopInv fs (⟨i, s, pf, fl, w⟩ : LoopOut F) →
      LoopInv fs (processLoop predict draw conf fps fs N frames i s pf fl w) := by
  intro frames
  induction frames with
  | nil =>
    intro i s pf fl w h
    rw [processLoop_nil]
    exact h
  | cons f rest ih =>
    intro i s pf fl w h
    obtain ⟨h1, h2, h3, h4⟩ := h
    by_cases hs : (i % fs == 0) = true
    · rw [processLoop_cons_sampled predict draw conf fps fs N f rest i s pf fl w hs]
      have h4' : List.map FrameRecord.frame_index pf =
          List.filter (fun j => j % fs == 0) (List.range i) := h4
      have hinv : LoopInv fs
          (⟨i + 1, s + 1,
            pf ++ [⟨i, if fps ≠ 0 then (i : Rat) / fps else 0, predict f conf⟩],
            fl ++ predict f conf, w ++ [draw f (predict f conf)]⟩ : LoopOut F) := by
        refine ⟨?_, ?_, ?_, ?_⟩
        · simpa using h1
        · simpa using h2
        · simpa using h3
        · show List.map FrameRecord.frame_index (pf ++ [_]) =
            List.filter (fun j => j % fs == 0) (List.range (i + 1))
          simp [List.range_succ, List.filter_append, List.filter_cons, hs, h4']
      split
      · exact hinv
      · exact ih _ _ _ _ _ hinv
    · rw [processLoop_cons_unsampled predict draw conf fps fs N f rest i s pf fl w
        (Bool.not_eq_true _ ▸ hs)]
      have h4' : List.map FrameRecord.frame_index pf =
          List.filter (fun j => j % fs == 0) (List.range i) := h4
      have hinv : LoopInv fs (⟨i + 1, s, pf, fl, w ++ [f]⟩ : LoopOut F) := by
        refine ⟨h1, h2, by simpa using h3, ?_⟩
        show List.map FrameRecord.frame_index pf =
          List.filter (fun j => j % fs == 0) (List.range (i + 1))
        simp [List.range_succ, List.filter_append, List.filter_cons,
          Bool.not_eq_true _ ▸ hs, h4']
      split
      · exact hinv
      · exact ih _ _ _ _ _ hinv

theorem processLoop_frame_idx_min {F : Type} (predict : F → Rat → List Detection)
    (draw : F → List Detection → F) (conf fps : Rat) (fs : Nat) (N : Int)
    (hN : 0 < N) :
    ∀ (frames : List F) (i s : Nat) (pf : List FrameRecord)
      (fl : List Detection) (w : List F), (i : Int) < N →
      (processLoop predict draw conf fps fs N frames i s pf fl w).frame_idx =
        min N.toNat (i + frames.length) := by
  intro frames
  induction frames with
  | nil =>
    intro i s pf fl w hi
    rw [processLoop_nil]
    simp only [LoopOut.frame_idx, List.length_nil, Nat.add_zero]
    omega
  | cons f rest ih =>
    intro i s pf fl w hi
    by_cases hs : (i % fs == 0) = true
    · rw [processLoop_cons_sampled predict draw conf fps fs N f rest i s pf fl w hs]
      split
      · next hc =>
        simp only [LoopOut.frame_idx, List.length_cons]
        omega
      · next hc =>
        rw [ih (i + 1) _ _ _ _ (by omega)]
        simp only [List.length_cons]
        omega
    · rw [processLoop_cons_unsampled predict draw conf fps fs N f rest i s pf fl w
        (Bool.not_eq_true _ ▸ hs)]
      split
      · next hc =>
        simp only [LoopOut.frame_idx, List.length_cons]
        omega
      · next hc =>
        rw [ih (i + 1) _ _ _ _ (by omega)]
        simp only [List.length_cons]
        omega

/-- Anatomy of a completed invocation: if `process_video` returns `.ok`,
then the source and the writer opened, and every component of the result
is determined by the decode loop run on the full frame list with the
clamped stride. -/
theorem process_video_ok_elim {F : Type} (predict : F → Rat → List Detection)
    (draw : F → List Detection → F) (shape : F → Nat × Nat)
    (encodeVideo : List F → List Nat) (transcodeBytes : List Nat → List Nat)
    (v : VideoFile F) (preOut : Option (List Nat)) (writerOpens ffmpegOk : Bool)
    (conf : Rat) (frame_step max_frames : Int)
    (m : VideoMeta) (fl : List Detection) (pf : List FrameRecord) (fsS : FSState)
    (h : (process_video predict draw shape encodeVideo transcodeBytes v preOut
        writerOpens ffmpegOk conf frame_step max_frames).1 = .ok (m, fl, pf, fsS)) :
    v.opens = true ∧ writerOpens = true ∧
    m.fps = (if v.fps0 ≠ 0 then v.fps0 else 25) ∧
    m.total_frames = v.total0 ∧
    m.frame_step = (max 1 frame_step).toNat ∧
    m.frames_read = (processLoop predict draw conf
      (if v.fps0 ≠ 0 then v.fps0 else 25) ((max 1 frame_step).toNat) max_frames
      v.frames 0 0 [] [] []).frame_idx ∧
    m.sampled_frames = (processLoop predict draw conf
      (if v.fps0 ≠ 0 then v.fps0 else 25) ((max 1 frame_step).toNat) max_frames
      v.frames 0 0 [] [] []).sampled ∧
    fl = (processLoop predict draw conf
      (if v.fps0 ≠ 0 then v.fps0 else 25) ((max 1 frame_step).toNat) max_frames
      v.frames 0 0 [] [] []).flat ∧
    pf = (processLoop predict draw conf
      (if v.fps0 ≠ 0 then v.fps0 else 25) ((max 1 frame_step).toNat) max_frames
      v.frames 0 0 [] [] []).per_frame ∧
    fsS = transcodeStep transcodeBytes ffmpegOk
      ⟨some (encodeVideo (processLoop predict draw conf
        (if v.fps0 ≠ 0 then v.fps0 else 25) ((max 1 frame_step).toNat) max_frames
        v.frames 0 0 [] [] []).written), preOut⟩ := by
  simp only [process_video] at h
  split at h
  · simp at h
  · next hop =>
    split at h
    · simp at h
    · next width height heq =>
      split at h
      · simp at h
      · next hwo =>
        simp only [Except.ok.injEq, Prod.mk.injEq] at h
        obtain ⟨hm, hfl, hpf, hfs⟩ := h
        simp only [Bool.not_eq_false] at hop hwo
        subst hm hfl hpf hfs
        exact ⟨hop, hwo, rfl, rfl, rfl, rfl, rfl, rfl, rfl, rfl⟩

/-- The number of multiples of `s` below `n` is `⌈n / s⌉ = (n + s - 1) / s`. -/
theorem length_filter_mod_range (s : Nat) (hs : 1 ≤ s) :
    ∀ n : Nat, ((List.range n).filter (fun j => j % s == 0)).length = (n + s - 1) / s := by
  intro n
  induction n with
  | zero =>
    simp only [List.range_zero, List.filter_nil, List.length_nil]
    exact (Nat.div_eq_of_lt (by omega)).symm
  | succ n ihn =>
    rw [List.range_succ, List.filter_append, List.length_append, ihn]
    have hkey : (n + s) / s = (n + s - 1) / s + (if s ∣ n + s then 1 else 0) := by
      have h1 : n + s - 1 + 1 = n + s := by omega
      conv_lhs => rw [← h1]
      rw [Nat.succ_div, h1]
    have h2 : (n + s) / s = n / s + 1 := Nat.add_div_right _ (by omega)
    have h3 : n + 1 + s - 1 = n + s := by omega
    rw [h3, h2]
    by_cases hd : n % s = 0
    · have hdvd : s ∣ n + s := dvd_add (Nat.dvd_of_mod_eq_zero hd) dvd_rfl
      rw [if_pos hdvd] at hkey
      simp only [List.filter_cons, hd, beq_self_eq_true, if_true, List.filter_nil,
        List.length_cons, List.length_nil]
      omega
    · have hdvd : ¬ s ∣ n + s := by
        intro hc
        obtain ⟨k, hk⟩ := (Nat.dvd_add_self_right).mp hc
        exact hd (by rw [hk]; exact Nat.mul_mod_right s k)
      rw [if_neg hdvd, Nat.add_zero] at hkey
      have hfilter : (List.filter (fun j => j % s == 0) [n]).length = 0 := by
        simp [List.filter_cons, beq_iff_eq, hd]
      rw [hfilter]
      omega

/-- Forward reduction of the success path: when the source opens, the
header dimensions are positive and the writer opens, `process_video`
returns the assembled result and the fully-released handle ledger. -/
theorem process_video_success {F : Type} (predict : F → Rat → List Detection)
    (draw : F → List Detection → F) (shape : F → Nat × Nat)
    (encodeVideo : List F → List Nat) (transcodeBytes : List Nat → List Nat)
    (v : VideoFile F) (preOut : Option (List Nat)) (ffmpegOk : Bool)
    (conf : Rat) (frame_step max_frames : Int)
    (hopen : v.opens = true) (hW : 0 < v.width0) (hH : 0 < v.height0) :
    process_video predict draw shape encodeVideo transcodeBytes v preOut
      true ffmpegOk conf frame_step max_frames =
    (.ok (⟨if v.fps0 ≠ 0 then v.fps0 else 25, v.width0, v.height0, v.total0,
        (processLoop predict draw conf (if v.fps0 ≠ 0 then v.fps0 else 25)
          ((max 1 frame_step).toNat) max_frames v.frames 0 0 [] [] []).frame_idx,
        (max 1 frame_step).toNat,
        (processLoop predict draw conf (if v.fps0 ≠ 0 then v.fps0 else 25)
          ((max 1 frame_step).toNat) max_frames v.frames 0 0 [] [] []).sampled⟩,
      (processLoop predict draw conf (if v.fps0 ≠ 0 then v.fps0 else 25)
        ((max 1 frame_step).toNat) max_frames v.frames 0 0 [] [] []).flat,
      (processLoop predict draw conf (if v.fps0 ≠ 0 then v.fps0 else 25)
        ((max 1 frame_step).toNat) max_frames v.frames 0 0 [] [] []).per_frame,
      transcodeStep transcodeBytes ffmpegOk
        ⟨some (encodeVideo (processLoop predict draw conf
          (if v.fps0 ≠ 0 then v.fps0 else 25) ((max 1 frame_step).toNat)
          max_frames v.frames 0 0 [] [] []).written), preOut⟩),
     ⟨true, true, true, true⟩) := by
  have hdims : ¬(v.width0 ≤ 0 ∨ v.height0 ≤ 0) := by omega
  simp [process_video, hopen, hdims]

/-- C2: if the transcode step fails, then: with no pre-existing final
file, the intermediate is renamed onto the final path as-is (so the final
output is exactly the writer's bytes, in particular non-empty whenever
those are); with a pre-existing final file the rename is skipped; and in
all cases the pipeline still completes with a full result, the
intermediate being deleted. -/
theorem C2_transcode_failure_fallback {F : Type}
    (predict : F → Rat → List Detection) (draw : F → List Detection → F)
    (shape : F → Nat × Nat) (encodeVideo : List F → List Nat)
    (transcodeBytes : List Nat → List Nat) (v : VideoFile F)
    (preOut : Option (List Nat)) (conf : Rat) (frame_step max_frames : Int)
    (hopen : v.opens = true) (hW : 0 < v.width0) (hH : 0 < v.height0) :
    ∃ (m : VideoMeta) (fl : List Detection) (pf : List FrameRecord)
      (fsS : FSState),
      (process_video predict draw shape encodeVideo transcodeBytes v preOut
        true false conf frame_step max_frames).1 = .ok (m, fl, pf, fsS) ∧
      fsS.raw = none ∧
      (preOut = none →
        fsS.out = some (encodeVideo (processLoop predict draw conf
          (if v.fps0 ≠ 0 then v.fps0 else 25) ((max 1 frame_step).toNat)
          max_frames v.frames 0 0 [] [] []).written)) ∧
      (∀ b, preOut = some b → fsS.out = some b) := by
  refine ⟨⟨if v.fps0 ≠ 0 then v.fps0 else 25, v.width0, v.height0, v.total0,
      (processLoop predict draw conf (if v.fps0 ≠ 0 then v.fps0 else 25)
        ((max 1 frame_step).toNat) max_frames v.frames 0 0 [] [] []).frame_idx,
      (max 1 frame_step).toNat,
      (processLoop predict draw conf (if v.fps0 ≠ 0 then v.fps0 else 25)
        ((max 1 frame_step).toNat) max_frames v.frames 0 0 [] [] []).sampled⟩,
    (processLoop predict draw conf (if v.fps0 ≠ 0 then v.fps0 else 25)
      ((max 1 frame_step).toNat) max_frames v.frames 0 0 [] [] []).flat,
    (processLoop predict draw conf (if v.fps0 ≠ 0 then v.fps0 else 25)
      ((max 1 frame_step).toNat) max_frames v.frames 0 0 [] [] []).per_frame,
    transcodeStep transcodeBytes false
      ⟨some (encodeVideo (processLoop predict draw conf
        (if v.fps0 ≠ 0 then v.fps0 else 25) ((max 1 frame_step).toNat)
        max_frames v.frames 0 0 [] [] []).written), preOut⟩,
    ?_, ?_, ?_, ?_⟩
  · rw [process_video_success predict draw shape encodeVideo transcodeBytes v
      preOut false conf frame_step max_frames hopen hW hH]
  · cases preOut <;> simp [transcodeStep]
  · intro hpo
    subst hpo
    simp [transcodeStep]
  · intro b hpo
    subst hpo
    simp [transcodeStep]

/-- C6 counterexample: on the dimension-probe-failure exit path
(header reports width 0, no frame can be read) the source handle was
opened but the invocation terminates without releasing it: there is no
`cap.release()` before the `raise` at `video.py` line 36. -/
theorem C6_counterexample :
    (process_video (fun (_ : Unit) (_ : Rat) => ([] : List Detection))
      (fun f _ => f) (fun _ => (1, 1)) (fun _ => [1]) id
      ⟨true, 25, 0, 1, 0, []⟩ none true true 0 5 0).1 = .error .readError ∧
    (process_video (fun (_ : Unit) (_ : Rat) => ([] : List Detection))
      (fun f _ => f) (fun _ => (1, 1)) (fun _ => [1]) id
      ⟨true, 25, 0, 1, 0, []⟩ none true true 0 5 0).2.capOpened = true ∧
    (process_video (fun (_ : Unit) (_ : Rat) => ([] : List Detection))
      (fun f _ => f) (fun _ => (1, 1)) (fun _ => [1]) id
      ⟨true, 25, 0, 1, 0, []⟩ none true true 0 5 0).2.capReleased = false :=
  ⟨rfl, rfl, rfl⟩

/-- C6 amended: the explicit `cap.release()` / `writer.release()` calls
run exactly on the normal-completion path, so every completed invocation
releases both handles; on every early-return fatal path no release is
performed (in particular the already-opened source handle stays
unreleased there). -/
theorem C6_release_on_completion_only {F : Type}
    (predict : F → Rat → List Detection) (draw : F → List Detection → F)
    (shape : F → Nat × Nat) (encodeVideo : List F → List Nat)
    (transcodeBytes : List Nat → List Nat) (v : VideoFile F)
    (preOut : Option (List Nat)) (writerOpens ffmpegOk : Bool)
    (conf : Rat) (frame_step max_frames : Int) :
    (∀ x, (process_video predict draw shape encodeVideo transcodeBytes v preOut
        writerOpens ffmpegOk conf frame_step max_frames).1 = .ok x →
      (process_video predict draw shape encodeVideo transcodeBytes v preOut
        writerOpens ffmpegOk conf frame_step max_frames).2 =
        ⟨true, true, true, true⟩) ∧
    (∀ e, (process_video predict draw shape encodeVideo transcodeBytes v preOut
        writerOpens ffmpegOk conf frame_step max_frames).1 = .error e →
      (process_video predict draw shape encodeVideo transcodeBytes v preOut
        writerOpens ffmpegOk conf frame_step max_frames).2.capReleased = false ∧
      (process_video predict draw shape encodeVideo transcodeBytes v preOut
        writerOpens ffmpegOk conf frame_step max_frames).2.writerReleased
        = false) := by
  simp only [process_video]
  split
  · exact ⟨fun x hx => by simp at hx, fun e he => ⟨rfl, rfl⟩⟩
  · split
    · exact ⟨fun x hx => by simp at hx, fun e he => ⟨rfl, rfl⟩⟩
    · split
      · exact ⟨fun x hx => by simp at hx, fun e he => ⟨rfl, rfl⟩⟩
      · exact ⟨fun x hx => rfl, fun e he => by simp at he⟩

/-- C1: for every pipeline invocation that completes, the returned result
satisfies `meta.sampled_frames == len(per_frame)`, and `flat_detections`
is exactly the concatenation, in frame order, of the detections of each
`FrameRecord` in `per_frame` (each record's detections in detector output
order). -/
theorem C1_sampled_count_and_flat_concat {F : Type}
    (predict : F → Rat → List Detection) (draw : F → List Detection → F)
    (shape : F → Nat × Nat) (encodeVideo : List F → List Nat)
    (transcodeBytes : List Nat → List Nat) (v : VideoFile F)
    (preOut : Option (List Nat)) (writerOpens ffmpegOk : Bool)
    (conf : Rat) (frame_step max_frames : Int)
    (m : VideoMeta) (fl : List Detection) (pf : List FrameRecord) (fsS : FSState)
    (h : (process_video predict draw shape encodeVideo transcodeBytes v preOut
        writerOpens ffmpegOk conf frame_step max_frames).1 = .ok (m, fl, pf, fsS)) :
    m.sampled_frames = pf.length ∧
    fl = (pf.map FrameRecord.detections).flatten := by
  obtain ⟨-, -, -, -, -, -, hsamp, hfl, hpf, -⟩ :=
    process_video_ok_elim predict draw shape encodeVideo transcodeBytes v preOut
      writerOpens ffmpegOk conf frame_step max_frames m fl pf fsS h
  obtain ⟨i1, i2, -, -⟩ := processLoop_inv predict draw conf
    (if v.fps0 ≠ 0 then v.fps0 else 25) ((max 1 frame_step).toNat) max_frames
    v.frames 0 0 [] [] [] ⟨rfl, rfl, rfl, by simp⟩
  subst hpf
  subst hfl
  exact ⟨hsamp.trans i1, i2⟩

/-- C3: with `maxFrames = N > 0` the loop stops once the decoded count
reaches `N`, after writing the current frame, so `frames_read ≤ N` and
every decoded frame was written; for `frameStep = 5`, `maxFrames = 12` on
a video of at least 12 frames, `frames_read = 12` and the sampled indices
are exactly `[0, 5, 10]`. -/
theorem C3_max_frames_cutoff {F : Type}
    (predict : F → Rat → List Detection) (draw : F → List Detection → F)
    (shape : F → Nat × Nat) (encodeVideo : List F → List Nat)
    (transcodeBytes : List Nat → List Nat) (v : VideoFile F)
    (preOut : Option (List Nat)) (writerOpens ffmpegOk : Bool)
    (conf : Rat) (frame_step max_frames : Int)
    (m : VideoMeta) (fl : List Detection) (pf : List FrameRecord) (fsS : FSState)
    (hN : 0 < max_frames)
    (h : (process_video predict draw shape encodeVideo transcodeBytes v preOut
        writerOpens ffmpegOk conf frame_step max_frames).1 = .ok (m, fl, pf, fsS)) :
    (m.frames_read : Int) ≤ max_frames ∧
    (processLoop predict draw conf (if v.fps0 ≠ 0 then v.fps0 else 25)
      ((max 1 frame_step).toNat) max_frames v.frames 0 0 [] [] []).written.length
      = m.frames_read ∧
    (frame_step = 5 → max_frames = 12 → 12 ≤ v.frames.length →
      m.frames_read = 12 ∧ pf.map FrameRecord.frame_index = [0, 5, 10]) := by
  obtain ⟨-, -, -, -, hstep, hread, -, -, hpf, -⟩ :=
    process_video_ok_elim predict draw shape encodeVideo transcodeBytes v preOut
      writerOpens ffmpegOk conf frame_step max_frames m fl pf fsS h
  have hmin := processLoop_frame_idx_min predict draw conf
    (if v.fps0 ≠ 0 then v.fps0 else 25) ((max 1 frame_step).toNat) max_frames hN
    v.frames 0 0 [] [] [] (by exact_mod_cast hN)
  obtain ⟨-, -, i3, i4⟩ := processLoop_inv predict draw conf
    (if v.fps0 ≠ 0 then v.fps0 else 25) ((max 1 frame_step).toNat) max_frames
    v.frames 0 0 [] [] [] ⟨rfl, rfl, rfl, by simp⟩
  refine ⟨?_, ?_, ?_⟩
  · rw [hread, hmin]
    omega
  · rw [hread]
    exact i3
  · intro h5 h12 hlen
    subst h5
    subst h12
    have hfr : m.frames_read = 12 := by
      rw [hread, hmin]
      omega
    refine ⟨hfr, ?_⟩
    rw [hread] at hfr
    rw [hpf, i4, hfr]
    decide

/-- C4: in every completed invocation every recorded `frame_index` is a
multiple of the (clamped, hence ≥ 1) `frame_step`, and the recorded
indices are strictly increasing. -/
theorem C4_frame_indices_aligned_increasing {F : Type}
    (predict : F → Rat → List Detection) (draw : F → List Detection → F)
    (shape : F → Nat × Nat) (encodeVideo : List F → List Nat)
    (transcodeBytes : List Nat → List Nat) (v : VideoFile F)
    (preOut : Option (List Nat)) (writerOpens ffmpegOk : Bool)
    (conf : Rat) (frame_step max_frames : Int)
    (m : VideoMeta) (fl : List Detection) (pf : List FrameRecord) (fsS : FSState)
    (h : (process_video predict draw shape encodeVideo transcodeBytes v preOut
        writerOpens ffmpegOk conf frame_step max_frames).1 = .ok (m, fl, pf, fsS)) :
    1 ≤ m.frame_step ∧
    (∀ r ∈ pf, r.frame_index % m.frame_step = 0) ∧
    List.Pairwise (fun a b => a < b) (pf.map FrameRecord.frame_index) := by
  obtain ⟨-, -, -, -, hstep, -, -, -, hpf, -⟩ :=
    process_video_ok_elim predict draw shape encodeVideo transcodeBytes v preOut
      writerOpens ffmpegOk conf frame_step max_frames m fl pf fsS h
  obtain ⟨-, -, -, i4⟩ := processLoop_inv predict draw conf
    (if v.fps0 ≠ 0 then v.fps0 else 25) ((max 1 frame_step).toNat) max_frames
    v.frames 0 0 [] [] [] ⟨rfl, rfl, rfl, by simp⟩
  have hge : 1 ≤ (max 1 frame_step).toNat := by omega
  refine ⟨hstep ▸ hge, ?_, ?_⟩
  · intro r hr
    have hmem : r.frame_index ∈ pf.map FrameRecord.frame_index :=
      List.mem_map_of_mem _ hr
    rw [hpf, i4] at hmem
    have hp := List.of_mem_filter hmem
    rw [hstep]
    simpa using hp
  · rw [hpf, i4]
    exact (List.pairwise_lt_range _).filter _

/-- C5: any caller-supplied `frameStep`, including `0` and negatives, is
clamped to `≥ 1` (the model never fails on it); a frame index is sampled
iff it is a multiple of the clamped stride, and a non-positive
`frameStep` behaves exactly like `frameStep = 1`. -/
theorem C5_frame_step_clamped {F : Type}
    (predict : F → Rat → List Detection) (draw : F → List Detection → F)
    (shape : F → Nat × Nat) (encodeVideo : List F → List Nat)
    (transcodeBytes : List Nat → List Nat) (v : VideoFile F)
    (preOut : Option (List Nat)) (writerOpens ffmpegOk : Bool)
    (conf : Rat) (frame_step max_frames : Int) :
    (frame_step ≤ 0 →
      process_video predict draw shape encodeVideo transcodeBytes v preOut
        writerOpens ffmpegOk conf frame_step max_frames =
      process_video predict draw shape encodeVideo transcodeBytes v preOut
        writerOpens ffmpegOk conf 1 max_frames) ∧
    (∀ (m : VideoMeta) (fl : List Detection) (pf : List FrameRecord)
        (fsS : FSState),
      (process_video predict draw shape encodeVideo transcodeBytes v preOut
        writerOpens ffmpegOk conf frame_step max_frames).1 = .ok (m, fl, pf, fsS) →
      m.frame_step = (max 1 frame_step).toNat ∧ 1 ≤ m.frame_step ∧
      ∀ i, (∃ r ∈ pf, r.frame_index = i) ↔
        (i < m.frames_read ∧ i % m.frame_step = 0)) := by
  constructor
  · intro hle
    have h1 : max 1 frame_step = 1 := max_eq_left (by omega)
    have h2 : max 1 (1 : Int) = 1 := max_eq_left (by omega)
    simp only [process_video, h1, h2]
  · intro m fl pf fsS h
    obtain ⟨-, -, -, -, hstep, hread, -, -, hpf, -⟩ :=
      process_video_ok_elim predict draw shape encodeVideo transcodeBytes v preOut
        writerOpens ffmpegOk conf frame_step max_frames m fl pf fsS h
    obtain ⟨-, -, -, i4⟩ := processLoop_inv predict draw conf
      (if v.fps0 ≠ 0 then v.fps0 else 25) ((max 1 frame_step).toNat) max_frames
      v.frames 0 0 [] [] [] ⟨rfl, rfl, rfl, by simp⟩
    have hge : 1 ≤ (max 1 frame_step).toNat := by omega
    refine ⟨hstep, hstep ▸ hge, ?_⟩
    intro i
    constructor
    · rintro ⟨r, hr, rfl⟩
      have hmem : r.frame_index ∈ pf.map FrameRecord.frame_index :=
        List.mem_map_of_mem _ hr
      rw [hpf, i4] at hmem
      have hp := List.mem_filter.mp hmem
      refine ⟨?_, ?_⟩
      · rw [hread]
        exact List.mem_range.mp hp.1
      · rw [hstep]
        simpa using hp.2
    · rintro ⟨hlt, hmod⟩
      have hmem : i ∈ pf.map FrameRecord.frame_index := by
        rw [hpf, i4]
        refine List.mem_filter.mpr ⟨List.mem_range.mpr ?_, ?_⟩
        · rw [hread] at hlt
          exact hlt
        · rw [hstep] at hmod
          simpa using hmod
      obtain ⟨r, hr, hri⟩ := List.mem_map.mp hmem
      exact ⟨r, hr, hri⟩

/-- C10: in every completed invocation `sampled_frames` is the ceiling of
`frames_read / frame_step` (with the clamped stride), equivalently
`(frames_read - 1) / frame_step + 1` when at least one frame was decoded
and `0` otherwise; and frame index 0 is sampled whenever a frame was
decoded. -/
theorem C10_sampled_equals_ceil {F : Type}
    (predict : F → Rat → List Detection) (draw : F → List Detection → F)
    (shape : F → Nat × Nat) (encodeVideo : List F → List Nat)
    (transcodeBytes : List Nat → List Nat) (v : VideoFile F)
    (preOut : Option (List Nat)) (writerOpens ffmpegOk : Bool)
    (conf : Rat) (frame_step max_frames : Int)
    (m : VideoMeta) (fl : List Detection) (pf : List FrameRecord) (fsS : FSState)
    (h : (process_video predict draw shape encodeVideo transcodeBytes v preOut
        writerOpens ffmpegOk conf frame_step max_frames).1 = .ok (m, fl, pf, fsS)) :
    m.sampled_frames = (m.frames_read + m.frame_step - 1) / m.frame_step ∧
    (1 ≤ m.frames_read →
      m.sampled_frames = (m.frames_read - 1) / m.frame_step + 1 ∧
      ∃ r ∈ pf, r.frame_index = 0) ∧
    (m.frames_read = 0 → m.sampled_frames = 0) := by
  obtain ⟨-, -, -, -, hstep, hread, hsamp, -, hpf, -⟩ :=
    process_video_ok_elim predict draw shape encodeVideo transcodeBytes v preOut
      writerOpens ffmpegOk conf frame_step max_frames m fl pf fsS h
  obtain ⟨i1, -, -, i4⟩ := processLoop_inv predict draw conf
    (if v.fps0 ≠ 0 then v.fps0 else 25) ((max 1 frame_step).toNat) max_frames
    v.frames 0 0 [] [] [] ⟨rfl, rfl, rfl, by simp⟩
  have hge : 1 ≤ (max 1 frame_step).toNat := by omega
  have hcount : (processLoop predict draw conf
      (if v.fps0 ≠ 0 then v.fps0 else 25) ((max 1 frame_step).toNat) max_frames
      v.frames 0 0 [] [] []).sampled =
      ((processLoop predict draw conf
        (if v.fps0 ≠ 0 then v.fps0 else 25) ((max 1 frame_step).toNat) max_frames
        v.frames 0 0 [] [] []).frame_idx + (max 1 frame_step).toNat - 1) /
        (max 1 frame_step).toNat := by
    rw [i1]
    have hlen := congrArg List.length i4
    rw [List.length_map] at hlen
    rw [hlen, length_filter_mod_range _ hge]
  refine ⟨?_, ?_, ?_⟩
  · rw [hsamp, hread, hstep]
    exact hcount
  · intro h1
    rw [hread] at h1
    constructor
    · rw [hsamp, hread, hstep, hcount]
      have harith : (processLoop predict draw conf
          (if v.fps0 ≠ 0 then v.fps0 else 25) ((max 1 frame_step).toNat) max_frames
          v.frames 0 0 [] [] []).frame_idx + (max 1 frame_step).toNat - 1 =
          ((processLoop predict draw conf
            (if v.fps0 ≠ 0 then v.fps0 else 25) ((max 1 frame_step).toNat) max_frames
            v.frames 0 0 [] [] []).frame_idx - 1) + (max 1 frame_step).toNat := by
        omega
      rw [harith, Nat.add_div_right _ (by omega)]
    · have h0 : (0 : Nat) ∈ pf.map FrameRecord.frame_index := by
        rw [hpf, i4]
        refine List.mem_filter.mpr ⟨List.mem_range.mpr (by omega), by simp⟩
      obtain ⟨r, hr, hr0⟩ := List.mem_map.mp h0
      exact ⟨r, hr, hr0⟩
  · intro h0
    rw [hread] at h0
    rw [hsamp, hcount, h0]
    exact Nat.div_eq_of_lt (by omega)

/-- Witness for C1: a one-frame video with one detection per sampled
frame; the completed-invocation hypothesis is discharged by evaluating
the model. -/
theorem C1_witness :
    (process_video wPredict wDraw wShape wEncode id (wVideo 1) none true true
      0 1 0).1 = .ok (⟨25, 1, 1, 0, 1, 1, 1⟩, [wDet], [⟨0, 0, [wDet]⟩],
        ⟨none, some [1]⟩) ∧
    ((⟨25, 1, 1, 0, 1, 1, 1⟩ : VideoMeta).sampled_frames
        = [(⟨0, 0, [wDet]⟩ : FrameRecord)].length ∧
      [wDet] = ([(⟨0, 0, [wDet]⟩ : FrameRecord)].map FrameRecord.detections).flatten) := by
  have h : (process_video wPredict wDraw wShape wEncode id (wVideo 1) none true
      true 0 1 0).1 = .ok (⟨25, 1, 1, 0, 1, 1, 1⟩, [wDet], [⟨0, 0, [wDet]⟩],
        ⟨none, some [1]⟩) := by
    rw [process_video_success wPredict wDraw wShape wEncode id (wVideo 1) none
      true 0 1 0 rfl (by decide) (by decide)]
    norm_num [processLoop, transcodeStep, wVideo, wPredict, wDraw, wEncode,
      List.replicate]
  exact ⟨h, C1_sampled_count_and_flat_concat wPredict wDraw wShape wEncode id
    (wVideo 1) none true true 0 1 0 _ _ _ _ h⟩

/-- Witness for C2: transcode fails on a 2-frame video with no
pre-existing final file; the final output is the renamed writer bytes. -/
theorem C2_witness :
    ∃ (m : VideoMeta) (fl : List Detection) (pf : List FrameRecord)
      (fsS : FSState),
      (process_video wPredict wDraw wShape wEncode id (wVideo 2) none true
        false 0 1 0).1 = .ok (m, fl, pf, fsS) ∧
      fsS.raw = none ∧ fsS.out = some [1] := by
  obtain ⟨m, fl, pf, fsS, h1, h2, h3, h4⟩ :=
    C2_transcode_failure_fallback wPredict wDraw wShape wEncode id (wVideo 2)
      none 0 1 0 rfl (by decide) (by decide)
  exact ⟨m, fl, pf, fsS, h1, h2, (h3 rfl).trans rfl⟩

/-- Witness for C3: 12 frames, `frameStep = 5`, `maxFrames = 12`:
`frames_read = 12`, sampled indices `[0, 5, 10]`. -/
theorem C3_witness :
    ((⟨25, 1, 1, 0, 12, 5, 3⟩ : VideoMeta).frames_read : Int) ≤ 12 ∧
    [(⟨0, 0, [wDet]⟩ : FrameRecord), ⟨5, 1/5, [wDet]⟩,
      ⟨10, 2/5, [wDet]⟩].map FrameRecord.frame_index = [0, 5, 10] := by
  have hloop : processLoop wPredict wDraw 0 25 5 12
      [(),(),(),(),(),(),(),(),(),(),(),()] 0 0 [] [] []
      = ⟨12, 3, [⟨0, 0, [wDet]⟩, ⟨5, 1/5, [wDet]⟩, ⟨10, 2/5, [wDet]⟩],
         [wDet, wDet, wDet], [(),(),(),(),(),(),(),(),(),(),(),()]⟩ := by
    rw [processLoop_cons_sampled _ _ _ _ _ _ _ _ _ _ _ _ _ (by decide),
      if_neg (by decide)]
    rw [processLoop_cons_unsampled _ _ _ _ _ _ _ _ _ _ _ _ _ (by decide),
      if_neg (by decide)]
    rw [processLoop_cons_unsampled _ _ _ _ _ _ _ _ _ _ _ _ _ (by decide),
      if_neg (by decide)]
    rw [processLoop_cons_unsampled _ _ _ _ _ _ _ _ _ _ _ _ _ (by decide),
      if_neg (by decide)]
    rw [processLoop_cons_unsampled _ _ _ _ _ _ _ _ _ _ _ _ _ (by decide),
      if_neg (by decide)]
    rw [processLoop_cons_sampled _ _ _ _ _ _ _ _ _ _ _ _ _ (by decide),
      if_neg (by decide)]
    rw [processLoop_cons_unsampled _ _ _ _ _ _ _ _ _ _ _ _ _ (by decide),
      if_neg (by decide)]
    rw [processLoop_cons_unsampled _ _ _ _ _ _ _ _ _ _ _ _ _ (by decide),
      if_neg (by decide)]
    rw [processLoop_cons_unsampled _ _ _ _ _ _ _ _ _ _ _ _ _ (by decide),
      if_neg (by decide)]
    rw [processLoop_cons_unsampled _ _ _ _ _ _ _ _ _ _ _ _ _ (by decide),
      if_neg (by decide)]
    rw [processLoop_cons_sampled _ _ _ _ _ _ _ _ _ _ _ _ _ (by decide),
      if_neg (by decide)]
    rw [processLoop_cons_unsampled _ _ _ _ _ _ _ _ _ _ _ _ _ (by decide),
      if_pos (by decide)]
    norm_num [wPredict, wDraw]
  have h : (process_video wPredict wDraw wShape wEncode id (wVideo 12) none
      true true 0 5 12).1 = .ok (⟨25, 1, 1, 0, 12, 5, 3⟩, [wDet, wDet, wDet],
        [⟨0, 0, [wDet]⟩, ⟨5, 1/5, [wDet]⟩, ⟨10, 2/5, [wDet]⟩],
        ⟨none, some [1]⟩) := by
    rw [process_video_success wPredict wDraw wShape wEncode id (wVideo 12)
      none true 0 5 12 rfl (by decide) (by decide)]
    have hfps : (if (wVideo 12).fps0 ≠ 0 then (wVideo 12).fps0 else 25) = 25 := by
      norm_num [wVideo]
    have hfs : ((max 1 (5 : Int)).toNat) = 5 := by
      rw [max_eq_right (by norm_num)]
      decide
    have hfr : (wVideo 12).frames = [(),(),(),(),(),(),(),(),(),(),(),()] := rfl
    rw [hfps, hfs, hfr, hloop]
    norm_num [transcodeStep, wEncode, wVideo]
  have t := C3_max_frames_cutoff wPredict wDraw wShape wEncode id (wVideo 12)
    none true true 0 5 12 ⟨25, 1, 1, 0, 12, 5, 3⟩ [wDet, wDet, wDet]
    [⟨0, 0, [wDet]⟩, ⟨5, 1/5, [wDet]⟩, ⟨10, 2/5, [wDet]⟩] ⟨none, some [1]⟩
    (by decide) h
  exact ⟨t.1, (t.2.2 rfl rfl (by decide)).2⟩

/-- Witness for C4: 3 frames at `frameStep = 2`: indices `[0, 2]`. -/
theorem C4_witness :
    (∀ r ∈ [(⟨0, 0, [wDet]⟩ : FrameRecord), ⟨2, 2/25, [wDet]⟩],
      r.frame_index % (⟨25, 1, 1, 0, 3, 2, 2⟩ : VideoMeta).frame_step = 0) ∧
    List.Pairwise (fun a b => a < b)
      ([(⟨0, 0, [wDet]⟩ : FrameRecord), ⟨2, 2/25, [wDet]⟩].map
        FrameRecord.frame_index) := by
  have h : (process_video wPredict wDraw wShape wEncode id (wVideo 3) none
      true true 0 2 0).1 = .ok (⟨25, 1, 1, 0, 3, 2, 2⟩, [wDet, wDet],
        [⟨0, 0, [wDet]⟩, ⟨2, 2/25, [wDet]⟩], ⟨none, some [1]⟩) := by
    have hfs2 : ((max 1 (2 : Int)).toNat) = 2 := by
      rw [max_eq_right (by norm_num)]
      decide
    rw [process_video_success wPredict wDraw wShape wEncode id (wVideo 3) none
      true 0 2 0 rfl (by decide) (by decide), hfs2]
    norm_num [processLoop, transcodeStep, wVideo, wPredict, wDraw, wEncode,
      List.replicate]
  have t := C4_frame_indices_aligned_increasing wPredict wDraw wShape wEncode
    id (wVideo 3) none true true 0 2 0 ⟨25, 1, 1, 0, 3, 2, 2⟩ [wDet, wDet]
    [⟨0, 0, [wDet]⟩, ⟨2, 2/25, [wDet]⟩] ⟨none, some [1]⟩ h
  exact ⟨t.2.1, t.2.2⟩

/-- Witness for C5: `frameStep = -3` behaves as `frameStep = 1`, and the
sampling characterization holds at the clamped stride. -/
theorem C5_witness :
    (process_video wPredict wDraw wShape wEncode id (wVideo 3) none true true
        0 (-3) 0 =
      process_video wPredict wDraw wShape wEncode id (wVideo 3) none true true
        0 1 0) ∧
    ((⟨25, 1, 1, 0, 3, 1, 3⟩ : VideoMeta).frame_step
        = (max 1 (-3 : Int)).toNat ∧
      1 ≤ (⟨25, 1, 1, 0, 3, 1, 3⟩ : VideoMeta).frame_step ∧
      ∀ i, (∃ r ∈ [(⟨0, 0, [wDet]⟩ : FrameRecord), ⟨1, 1/25, [wDet]⟩,
          ⟨2, 2/25, [wDet]⟩], r.frame_index = i) ↔
        (i < (⟨25, 1, 1, 0, 3, 1, 3⟩ : VideoMeta).frames_read ∧
          i % (⟨25, 1, 1, 0, 3, 1, 3⟩ : VideoMeta).frame_step = 0)) := by
  have h : (process_video wPredict wDraw wShape wEncode id (wVideo 3) none
      true true 0 (-3) 0).1 = .ok (⟨25, 1, 1, 0, 3, 1, 3⟩,
        [wDet, wDet, wDet], [⟨0, 0, [wDet]⟩, ⟨1, 1/25, [wDet]⟩,
          ⟨2, 2/25, [wDet]⟩], ⟨none, some [1]⟩) := by
    rw [process_video_success wPredict wDraw wShape wEncode id (wVideo 3) none
      true 0 (-3) 0 rfl (by decide) (by decide)]
    norm_num [processLoop, transcodeStep, wVideo, wPredict, wDraw, wEncode,
      List.replicate]
  exact ⟨(C5_frame_step_clamped wPredict wDraw wShape wEncode id (wVideo 3)
      none true true 0 (-3) 0).1 (by decide),
    (C5_frame_step_clamped wPredict wDraw wShape wEncode id (wVideo 3) none
      true true 0 (-3) 0).2 ⟨25, 1, 1, 0, 3, 1, 3⟩ [wDet, wDet, wDet]
      [⟨0, 0, [wDet]⟩, ⟨1, 1/25, [wDet]⟩, ⟨2, 2/25, [wDet]⟩]
      ⟨none, some [1]⟩ h⟩

/-- Witness for the amended C6: on the probe-failure path the theorem
yields the unreleased handles. -/
theorem C6_release_witness :
    (process_video wPredict wDraw wShape wEncode id
      (⟨true, 25, 0, 1, 0, []⟩ : VideoFile Unit) none true true
      0 5 0).2.capReleased = false ∧
    (process_video wPredict wDraw wShape wEncode id
      (⟨true, 25, 0, 1, 0, []⟩ : VideoFile Unit) none true true
      0 5 0).2.writerReleased = false :=
  (C6_release_on_completion_only wPredict wDraw wShape wEncode id
    ⟨true, 25, 0, 1, 0, []⟩ none true true 0 5 0).2 .readError rfl

/-- Witness for C10: 3 frames at stride 2: `sampled = ⌈3/2⌉ = 2` and
frame 0 is sampled. -/
theorem C10_witness :
    (⟨25, 1, 1, 0, 3, 2, 2⟩ : VideoMeta).sampled_frames = (3 + 2 - 1) / 2 ∧
    ∃ r ∈ [(⟨0, 0, [wDet]⟩ : FrameRecord), ⟨2, 2/25, [wDet]⟩],
      r.frame_index = 0 := by
  have h : (process_video wPredict wDraw wShape wEncode id (wVideo 3) none
      true true 0 2 0).1 = .ok (⟨25, 1, 1, 0, 3, 2, 2⟩, [wDet, wDet],
        [⟨0, 0, [wDet]⟩, ⟨2, 2/25, [wDet]⟩], ⟨none, some [1]⟩) := by
    have hfs2 : ((max 1 (2 : Int)).toNat) = 2 := by
      rw [max_eq_right (by norm_num)]
      decide
    rw [process_video_success wPredict wDraw wShape wEncode id (wVideo 3) none
      true 0 2 0 rfl (by decide) (by decide), hfs2]
    norm_num [processLoop, transcodeStep, wVideo, wPredict, wDraw, wEncode,
      List.replicate]
  have t := C10_sampled_equals_ceil wPredict wDraw wShape wEncode id (wVideo 3)
    none true true 0 2 0 ⟨25, 1, 1, 0, 3, 2, 2⟩ [wDet, wDet]
    [⟨0, 0, [wDet]⟩, ⟨2, 2/25, [wDet]⟩] ⟨none, some [1]⟩ h
  exact ⟨t.1, (t.2.1 (by decide)).2⟩

end Video

namespace Visualize

theorem getD_set_self {α : Type} (l : List α) (i : Nat) (a d : α)
    (h : i < l.length) : (l.set i a).getD i d = a := by
  rw [List.getD_eq_getElem?_getD, List.getElem?_set_self h]
  rfl

theorem getD_set_ne {α : Type} (l : List α) {i j : Nat} (a d : α)
    (h : i ≠ j) : (l.set i a).getD j d = l.getD j d := by
  rw [List.getD_eq_getElem?_getD, List.getD_eq_getElem?_getD,
    List.getElem?_set_ne h]

theorem getD_append_self {α : Type} (l : List α) (a d : α) :
    (l ++ [a]).getD l.length d = a := by
  rw [List.getD_append_right _ _ _ _ (le_refl _), Nat.sub_self]
  rfl

theorem drawBoxes_length (E : Ext) (out : Nat) :
    ∀ (dets : List Detection) (h : Heap) (counts : List (String × Nat))
      (colors : List (String × Color)),
      (drawBoxes E out h dets counts colors).1.length = h.length := by
  intro dets
  induction dets with
  | nil => intro h counts colors; rfl
  | cons det rest ih =>
    intro h counts colors
    simp only [drawBoxes]
    rw [ih]
    simp [cvRectangle, cvPutText, List.length_set]

theorem drawBoxes_getD_ne (E : Ext) (out : Nat) :
    ∀ (dets : List Detection) (h : Heap) (counts : List (String × Nat))
      (colors : List (String × Color)) (j : Nat), j ≠ out →
      (drawBoxes E out h dets counts colors).1.getD j default
        = h.getD j default := by
  intro dets
  induction dets with
  | nil => intro h counts colors j hj; rfl
  | cons det rest ih =>
    intro h counts colors j hj
    simp only [drawBoxes]
    rw [ih _ _ _ _ hj]
    simp only [cvPutText, cvRectangle]
    rw [getD_set_ne _ _ _ (fun he => hj he.symm),
      getD_set_ne _ _ _ (fun he => hj he.symm),
      getD_set_ne _ _ _ (fun he => hj he.symm)]

theorem drawBoxes_counts (E : Ext) (out : Nat) :
    ∀ (dets : List Detection) (h : Heap) (counts : List (String × Nat))
      (colors : List (String × Color)),
      (drawBoxes E out h dets counts colors).2.1
        = dets.foldl (fun m d => bumpCount m d.class_name) counts := by
  intro dets
  induction dets with
  | nil => intro h counts colors; rfl
  | cons det rest ih =>
    intro h counts colors
    simp only [drawBoxes, List.foldl_cons]
    rw [ih]

theorem drawBoxes_colors (E : Ext) (out : Nat) :
    ∀ (dets : List Detection) (h : Heap) (counts : List (String × Nat))
      (colors : List (String × Color)),
      (drawBoxes E out h dets counts colors).2.2
        = dets.foldl
            (fun m d => setdefault m d.class_name (_color_for_class E d.class_id))
            colors := by
  intro dets
  induction dets with
  | nil => intro h counts colors; rfl
  | cons det rest ih =>
    intro h counts colors
    simp only [drawBoxes, List.foldl_cons]
    rw [ih]

theorem legendRows_length (E : Ext) (out : Nat) (counts : List (String × Nat))
    (colors : List (String × Color)) (x1 pad line_h : Int) :
    ∀ (ns : List String) (h : Heap) (y : Int),
      (legendRows E out counts colors x1 pad line_h h ns y).length
        = h.length := by
  intro ns
  induction ns with
  | nil => intro h y; rfl
  | cons n rest ih =>
    intro h y
    simp only [legendRows]
    rw [ih]
    simp [cvRectangle, cvPutText, List.length_set]

theorem legendRows_getD_ne (E : Ext) (out : Nat) (counts : List (String × Nat))
    (colors : List (String × Color)) (x1 pad line_h : Int) :
    ∀ (ns : List String) (h : Heap) (y : Int) (j : Nat), j ≠ out →
      (legendRows E out counts colors x1 pad line_h h ns y).getD j default
        = h.getD j default := by
  intro ns
  induction ns with
  | nil => intro h y j hj; rfl
  | cons n rest ih =>
    intro h y j hj
    simp only [legendRows]
    rw [ih _ _ _ hj]
    simp only [cvPutText, cvRectangle]
    rw [getD_set_ne _ _ _ (fun he => hj he.symm),
      getD_set_ne _ _ _ (fun he => hj he.symm)]

theorem legendRows_spineTexts (E : Ext) (out : Nat)
    (counts : List (String × Nat)) (colors : List (String × Color))
    (x1 pad line_h : Int) :
    ∀ (ns : List String) (h : Heap) (y : Int), out < h.length →
      ((legendRows E out counts colors x1 pad line_h h ns y).getD out
          default).spineTexts
        = (h.getD out default).spineTexts
            ++ ns.map (fun n => n ++ ": " ++ toString (dictGet counts n 0)) := by
  intro ns
  induction ns with
  | nil => intro h y hout; simp [legendRows]
  | cons n rest ih =>
    intro h y hout
    simp only [legendRows]
    rw [ih]
    · simp only [cvPutText, cvRectangle]
      rw [getD_set_self _ _ _ _ (by simpa [List.length_set] using hout),
        getD_set_self _ _ _ _ (by simpa using hout)]
      simp [Img.spineTexts]
    · simpa [cvPutText, cvRectangle, List.length_set] using hout

theorem legendRows_spineSwatches (E : Ext) (out : Nat)
    (counts : List (String × Nat)) (colors : List (String × Color))
    (x1 pad line_h : Int) :
    ∀ (ns : List String) (h : Heap) (y : Int), out < h.length →
      ((legendRows E out counts colors x1 pad line_h h ns y).getD out
          default).spineSwatches
        = (h.getD out default).spineSwatches
            ++ ns.map (fun n =>
              if !colors.isEmpty && dictMem colors n then
                dictGet colors n (0, 0, 0)
              else
                _color_for_class E ((E.md5hex8 n % 1000 : Nat) : Int)) := by
  intro ns
  induction ns with
  | nil => intro h y hout; simp [legendRows]
  | cons n rest ih =>
    intro h y hout
    simp only [legendRows]
    rw [ih]
    · simp only [cvPutText, cvRectangle]
      rw [getD_set_self _ _ _ _ (by simpa [List.length_set] using hout),
        getD_set_self _ _ _ _ (by simpa using hout)]
      simp [Img.spineSwatches]
    · simpa [cvPutText, cvRectangle, List.length_set] using hout

theorem _draw_legend_getD_ne (E : Ext) (h : Heap) (out : Nat)
    (ns : List String) (counts : List (String × Nat))
    (colors : List (String × Color)) (j : Nat) (hj : j ≠ out)
    (hjl : j < h.length) :
    (_draw_legend E h out ns counts colors).getD j default
      = h.getD j default := by
  by_cases hns : ns.isEmpty = true
  · simp [_draw_legend, hns]
  · simp only [_draw_legend, hns, Bool.false_eq_true, if_false, Heap.copy]
    rw [legendRows_getD_ne _ _ _ _ _ _ _ _ _ _ _ hj]
    simp only [cvRectangle, cvAddWeighted]
    rw [getD_set_ne _ _ _ (fun he => hj he.symm),
      getD_set_ne _ _ _ (fun he => hj he.symm),
      getD_set_ne _ _ _ (fun he => (Nat.ne_of_lt hjl) he.symm)]
    exact List.getD_append _ _ _ _ hjl

theorem _draw_legend_spineTexts (E : Ext) (h : Heap) (out : Nat)
    (ns : List String) (counts : List (String × Nat))
    (colors : List (String × Color)) (hout : out < h.length)
    (hne : ns ≠ []) :
    ((_draw_legend E h out ns counts colors).getD out default).spineTexts
      = ns.map (fun n => n ++ ": " ++ toString (dictGet counts n 0)) := by
  have hns : ns.isEmpty = false := by
    cases ns
    · exact absurd rfl hne
    · rfl
  simp only [_draw_legend, hns, Bool.false_eq_true, if_false, Heap.copy]
  rw [legendRows_spineTexts]
  · simp only [cvRectangle, cvAddWeighted]
    rw [getD_set_self _ _ _ _
        (by simp only [List.length_set, List.length_append]; omega),
      getD_set_self _ _ _ _
        (by simp only [List.length_set, List.length_append]; omega)]
    simp [Img.spineTexts]
  · simp only [cvRectangle, cvAddWeighted, List.length_set, List.length_append]
    omega

theorem _draw_legend_spineSwatches (E : Ext) (h : Heap) (out : Nat)
    (ns : List String) (counts : List (String × Nat))
    (colors : List (String × Color)) (hout : out < h.length)
    (hne : ns ≠ []) :
    ((_draw_legend E h out ns counts colors).getD out default).spineSwatches
      = ns.map (fun n =>
          if !colors.isEmpty && dictMem colors n then
            dictGet colors n (0, 0, 0)
          else
            _color_for_class E ((E.md5hex8 n % 1000 : Nat) : Int)) := by
  have hns : ns.isEmpty = false := by
    cases ns
    · exact absurd rfl hne
    · rfl
  simp only [_draw_legend, hns, Bool.false_eq_true, if_false, Heap.copy]
  rw [legendRows_spineSwatches]
  · simp only [cvRectangle, cvAddWeighted]
    rw [getD_set_self _ _ _ _
        (by simp only [List.length_set, List.length_append]; omega),
      getD_set_self _ _ _ _
        (by simp only [List.length_set, List.length_append]; omega)]
    simp [Img.spineSwatches]
  · simp only [cvRectangle, cvAddWeighted, List.length_set, List.length_append]
    omega

theorem dictMem_iff {A : Type} (m : List (String × A)) (k : String) :
    dictMem m k = true ↔ k ∈ m.map Prod.fst := by
  simp only [dictMem, List.any_eq_true, beq_iff_eq, List.mem_map]

theorem keys_bumpCount (m : List (String × Nat)) (k : String) :
    (bumpCount m k).map Prod.fst =
      if k ∈ m.map Prod.fst then m.map Prod.fst else m.map Prod.fst ++ [k] := by
  induction m with
  | nil => simp [bumpCount]
  | cons p rest ih =>
    by_cases hk : p.1 = k
    · simp [bumpCount, hk]
    · simp only [bumpCount, hk, if_false, List.map_cons, List.mem_cons, ih]
      by_cases hmem : k ∈ rest.map Prod.fst
      · simp [hmem, Ne.symm hk]
      · simp [hmem, Ne.symm hk]

theorem keys_setdefault {A : Type} (m : List (String × A)) (k : String)
    (v : A) :
    (setdefault m k v).map Prod.fst =
      if k ∈ m.map Prod.fst then m.map Prod.fst else m.map Prod.fst ++ [k] := by
  induction m with
  | nil => simp [setdefault]
  | cons p rest ih =>
    by_cases hk : p.1 = k
    · simp [setdefault, hk]
    · simp only [setdefault, hk, if_false, List.map_cons, List.mem_cons, ih]
      by_cases hmem : k ∈ rest.map Prod.fst
      · simp [hmem, Ne.symm hk]
      · simp [hmem, Ne.symm hk]

theorem nodup_keys_bumpCount (m : List (String × Nat)) (k : String)
    (hm : (m.map Prod.fst).Nodup) : ((bumpCount m k).map Prod.fst).Nodup := by
  rw [keys_bumpCount]
  by_cases hmem : k ∈ m.map Prod.fst
  · simpa [hmem] using hm
  · simp only [hmem, if_false]
    refine List.Nodup.append hm (List.nodup_singleton k) ?_
    intro a ha hb
    simp only [List.mem_singleton] at hb
    subst hb
    exact hmem ha

theorem nodup_keys_foldl_bumpCount :
    ∀ (dets : List Detection) (m : List (String × Nat)),
      (m.map Prod.fst).Nodup →
      ((dets.foldl (fun m d => bumpCount m d.class_name) m).map Prod.fst).Nodup := by
  intro dets
  induction dets with
  | nil => intro m hm; exact hm
  | cons d rest ih =>
    intro m hm
    exact ih _ (nodup_keys_bumpCount m d.class_name hm)

theorem nodup_keys_classCountsOf (dets : List Detection) :
    ((classCountsOf dets).map Prod.fst).Nodup :=
  nodup_keys_foldl_bumpCount dets [] List.nodup_nil

theorem keys_counts_eq_keys_colors (E : Ext) :
    ∀ (dets : List Detection) (m1 : List (String × Nat))
      (m2 : List (String × Color)), m1.map Prod.fst = m2.map Prod.fst →
      (dets.foldl (fun m d => bumpCount m d.class_name) m1).map Prod.fst =
      (dets.foldl
        (fun m d => setdefault m d.class_name (_color_for_class E d.class_id))
        m2).map Prod.fst := by
  intro dets
  induction dets with
  | nil => intro m1 m2 hk; exact hk
  | cons d rest ih =>
    intro m1 m2 hk
    refine ih _ _ ?_
    rw [keys_bumpCount, keys_setdefault, hk]

theorem keys_classCountsOf_eq (E : Ext) (dets : List Detection) :
    (classCountsOf dets).map Prod.fst = (classColorsOf E dets).map Prod.fst :=
  keys_counts_eq_keys_colors E dets [] [] rfl

theorem bumpCount_ne_nil (m : List (String × Nat)) (k : String) :
    bumpCount m k ≠ [] := by
  cases m with
  | nil => simp [bumpCount]
  | cons p rest =>
    simp only [bumpCount]
    split <;> simp

theorem foldl_bumpCount_ne_nil :
    ∀ (dets : List Detection) (m : List (String × Nat)), m ≠ [] →
      dets.foldl (fun m d => bumpCount m d.class_name) m ≠ [] := by
  intro dets
  induction dets with
  | nil => intro m hm; exact hm
  | cons d rest ih =>
    intro m hm
    exact ih _ (bumpCount_ne_nil m d.class_name)

theorem classCountsOf_ne_nil (dets : List Detection) (hne : dets ≠ []) :
    classCountsOf dets ≠ [] := by
  cases dets with
  | nil => exact absurd rfl hne
  | cons d rest =>
    exact foldl_bumpCount_ne_nil rest _ (bumpCount_ne_nil [] d.class_name)

theorem legendKeyLE_elim {counts : List (String × Nat)} {a b : String}
    (h : legendKeyLE counts a b = true) :
    dictGet counts b 0 < dictGet counts a 0 ∨
    (dictGet counts a 0 = dictGet counts b 0 ∧ a ≤ b) := by
  simpa [legendKeyLE, Bool.or_eq_true, Bool.and_eq_true, decide_eq_true_eq,
    beq_iff_eq] using h

theorem legendKeyLE_trans (counts : List (String × Nat)) (a b c : String)
    (hab : legendKeyLE counts a b = true)
    (hbc : legendKeyLE counts b c = true) :
    legendKeyLE counts a c = true := by
  simp only [legendKeyLE, Bool.or_eq_true, Bool.and_eq_true,
    decide_eq_true_eq, beq_iff_eq] at hab hbc ⊢
  rcases hab with h1 | ⟨h1, h2⟩ <;> rcases hbc with h3 | ⟨h3, h4⟩
  · exact Or.inl (by omega)
  · exact Or.inl (by omega)
  · exact Or.inl (by omega)
  · exact Or.inr ⟨h1.trans h3, h2.trans h4⟩

theorem legendKeyLE_total (counts : List (String × Nat)) (a b : String) :
    (legendKeyLE counts a b || legendKeyLE counts b a) = true := by
  simp only [legendKeyLE, Bool.or_eq_true, Bool.and_eq_true,
    decide_eq_true_eq, beq_iff_eq]
  rcases lt_trichotomy (dictGet counts a 0) (dictGet counts b 0) with h | h | h
  · exact Or.inr (Or.inl h)
  · rcases le_total a b with hab | hba
    · exact Or.inl (Or.inr ⟨h, hab⟩)
    · exact Or.inr (Or.inr ⟨h.symm, hba⟩)
  · exact Or.inl (Or.inl h)

theorem draw_detections_bgr_snd (E : Ext) (h : Heap) (i : Nat)
    (dets : List Detection) :
    (draw_detections_bgr E h i dets).2 = h.length := by
  simp only [draw_detections_bgr, Heap.copy]
  split <;> rfl

/-- C7: annotating with an empty detection list returns a byte-identical
copy of the input frame and draws nothing — no box, no legend: the heap
gains exactly one fresh copy of the input image and the returned image
equals the input image. -/
theorem C7_empty_detections_identity (E : Ext) (h : Heap) (i : Nat) :
    (draw_detections_bgr E h i []).1 = h ++ [h.getD i default] ∧
    (draw_detections_bgr E h i []).2 = h.length ∧
    (draw_detections_bgr E h i []).1.getD (draw_detections_bgr E h i []).2
      default = h.getD i default := by
  refine ⟨rfl, rfl, ?_⟩
  show (h ++ [h.getD i default]).getD h.length default = h.getD i default
  exact getD_append_self h _ default

/-- C8: the annotator never mutates the input image: it returns a fresh
copy (a different buffer), and the input buffer's contents are unchanged
after the call, whatever the detections. -/
theorem C8_input_not_mutated (E : Ext) (h : Heap) (i : Nat)
    (dets : List Detection) (hi : i < h.length) :
    (draw_detections_bgr E h i dets).1.getD i default = h.getD i default ∧
    (draw_detections_bgr E h i dets).2 ≠ i := by
  have hne : i ≠ h.length := Nat.ne_of_lt hi
  constructor
  · simp only [draw_detections_bgr, Heap.copy]
    split
    · rw [drawBoxes_getD_ne _ _ _ _ _ _ _ hne]
      exact List.getD_append _ _ _ _ hi
    · rw [_draw_legend_getD_ne _ _ _ _ _ _ _ hne
        (by rw [drawBoxes_length]; simp only [List.length_append]; omega)]
      rw [drawBoxes_getD_ne _ _ _ _ _ _ _ hne]
      exact List.getD_append _ _ _ _ hi
  · rw [draw_detections_bgr_snd]
    exact fun he => hne he.symm

/-- Witness for C8: a one-image heap annotated with one detection. -/
theorem C8_witness :
    (draw_detections_bgr wExt [Img.base 0 4 4] 0 [Video.wDet]).1.getD 0 default
      = ([Img.base 0 4 4] : Heap).getD 0 default ∧
    (draw_detections_bgr wExt [Img.base 0 4 4] 0 [Video.wDet]).2 ≠ 0 :=
  C8_input_not_mutated wExt [Img.base 0 4 4] 0 [Video.wDet] (by decide)

/-- C9: for a non-empty detection list the annotator draws, after all the
boxes (above the panel blend), a legend listing the up-to-12 most
frequent class names: at most 12 rows, ordered by descending per-class
count with ties broken by ascending name, every listed class at least as
frequent as every unlisted one, and each row rendered as the class-color
swatch plus the text `"name: count"`. -/
theorem C9_legend_top12 (E : Ext) (h : Heap) (i : Nat)
    (dets : List Detection) (hne : dets ≠ []) :
    (legendNames dets).length ≤ 12 ∧
    List.Pairwise (fun a b =>
      dictGet (classCountsOf dets) b 0 < dictGet (classCountsOf dets) a 0 ∨
      (dictGet (classCountsOf dets) a 0 = dictGet (classCountsOf dets) b 0 ∧
        a < b)) (legendNames dets) ∧
    (∀ a ∈ legendNames dets, ∀ b ∈ (classCountsOf dets).map Prod.fst,
      b ∉ legendNames dets →
      dictGet (classCountsOf dets) b 0 ≤ dictGet (classCountsOf dets) a 0) ∧
    ((draw_detections_bgr E h i dets).1.getD
        (draw_detections_bgr E h i dets).2 default).spineTexts
      = (legendNames dets).map
          (fun n => n ++ ": " ++ toString (dictGet (classCountsOf dets) n 0)) ∧
    ((draw_detections_bgr E h i dets).1.getD
        (draw_detections_bgr E h i dets).2 default).spineSwatches
      = (legendNames dets).map
          (fun n => dictGet (classColorsOf E dets) n (0, 0, 0)) := by
  have hccne : classCountsOf dets ≠ [] := classCountsOf_ne_nil dets hne
  have hkeysne : (classCountsOf dets).map Prod.fst ≠ [] := by
    intro hk
    exact hccne (List.map_eq_nil_iff.mp hk)
  have hperm := List.mergeSort_perm ((classCountsOf dets).map Prod.fst)
    (legendKeyLE (classCountsOf dets))
  have hsorted := List.sorted_mergeSort
    (legendKeyLE_trans (classCountsOf dets))
    (legendKeyLE_total (classCountsOf dets))
    ((classCountsOf dets).map Prod.fst)
  have hndL : (((classCountsOf dets).map Prod.fst).mergeSort
      (legendKeyLE (classCountsOf dets))).Nodup :=
    (nodup_keys_classCountsOf dets).perm hperm.symm
  have hnamesdef : legendNames dets = (((classCountsOf dets).map Prod.fst).mergeSort
      (legendKeyLE (classCountsOf dets))).take 12 := rfl
  have hLne : (((classCountsOf dets).map Prod.fst).mergeSort
      (legendKeyLE (classCountsOf dets))) ≠ [] := by
    intro h0
    apply hkeysne
    have := hperm.length_eq
    rw [h0] at this
    exact List.length_eq_zero.mp this.symm
  have hnamesne : legendNames dets ≠ [] := by
    rw [hnamesdef]
    intro h0
    apply hLne
    have h12 : (0 : Nat) < 12 := by omega
    rcases List.take_eq_nil_iff.mp h0 with h1 | h1
    · omega
    · exact h1
  have hc : (drawBoxes E (List.length h) (h ++ [h.getD i default])
      dets [] []).2.1 = classCountsOf dets :=
    drawBoxes_counts E _ dets _ [] []
  have hcol : (drawBoxes E (List.length h) (h ++ [h.getD i default])
      dets [] []).2.2 = classColorsOf E dets :=
    drawBoxes_colors E _ dets _ [] []
  have hemp : (classCountsOf dets).isEmpty = false := by
    cases hcc : classCountsOf dets with
    | nil => exact absurd hcc hccne
    | cons a l => rfl
  have hval : draw_detections_bgr E h i dets =
      (_draw_legend E
        (drawBoxes E (List.length h) (h ++ [h.getD i default]) dets [] []).1
        (List.length h) (legendNames dets) (classCountsOf dets)
        (classColorsOf E dets), List.length h) := by
    simp only [draw_detections_bgr, Heap.copy]
    rw [hc, hcol, hemp]
    simp only [Bool.false_eq_true, if_false]
    rfl
  have houtb : List.length h < ((drawBoxes E (List.length h)
      (h ++ [h.getD i default]) dets [] []).1).length := by
    rw [drawBoxes_length]
    simp only [List.length_append, List.length_cons, List.length_nil]
    omega
  refine ⟨?_, ?_, ?_, ?_, ?_⟩
  · rw [hnamesdef]
    exact List.length_take_le 12 _
  · have hPW := List.Pairwise.sublist (List.take_sublist 12 _) hsorted
    have hND : (legendNames dets).Nodup := by
      rw [hnamesdef]
      exact hndL.sublist (List.take_sublist 12 _)
    rw [hnamesdef] at hND ⊢
    refine (hPW.and hND).imp ?_
    rintro a b ⟨hle, hneq⟩
    rcases legendKeyLE_elim hle with h1 | ⟨h1, h2⟩
    · exact Or.inl h1
    · exact Or.inr ⟨h1, lt_of_le_of_ne h2 hneq⟩
  · intro a ha b hb hnb
    have hbL : b ∈ (((classCountsOf dets).map Prod.fst).mergeSort
        (legendKeyLE (classCountsOf dets))) := hperm.mem_iff.mpr hb
    have hsplit := List.take_append_drop 12
      (((classCountsOf dets).map Prod.fst).mergeSort
        (legendKeyLE (classCountsOf dets)))
    have hbdrop : b ∈ (((classCountsOf dets).map Prod.fst).mergeSort
        (legendKeyLE (classCountsOf dets))).drop 12 := by
      rw [← hsplit] at hbL
      rcases List.mem_append.mp hbL with h1 | h1
      · exact absurd h1 (hnamesdef ▸ hnb)
      · exact h1
    have hPWapp := hsplit ▸ hsorted
    have hrel := (List.pairwise_append.mp (hsplit.symm ▸ hsorted)).2.2 a
      (hnamesdef ▸ ha) b hbdrop
    rcases legendKeyLE_elim hrel with h1 | ⟨h1, h2⟩
    · exact le_of_lt h1
    · exact le_of_eq h1.symm
  · rw [hval]
    exact _draw_legend_spineTexts E _ (List.length h) (legendNames dets) _ _
      houtb hnamesne
  · rw [hval]
    rw [_draw_legend_spineSwatches E _ (List.length h) (legendNames dets) _ _
      houtb hnamesne]
    refine List.map_congr_left ?_
    intro n hn
    have hnkeys_counts : n ∈ (classCountsOf dets).map Prod.fst := by
      rw [hnamesdef] at hn
      exact hperm.mem_iff.mp (List.mem_of_mem_take hn)
    have hnkeys : n ∈ (classColorsOf E dets).map Prod.fst :=
      keys_classCountsOf_eq E dets ▸ hnkeys_counts
    have hmemb : dictMem (classColorsOf E dets) n = true :=
      (dictMem_iff _ _).mpr hnkeys
    have hcolne : (classColorsOf E dets).isEmpty = false := by
      cases hcc : classColorsOf E dets with
      | nil =>
        rw [hcc] at hnkeys
        simp at hnkeys
      | cons a l => rfl
    simp [hcolne, hmemb]

/-- Witness for C9: one detection of class `"obj"` on a 100×200 image. -/
theorem C9_witness :
    (legendNames [Video.wDet]).length ≤ 12 ∧
    List.Pairwise (fun a b =>
      dictGet (classCountsOf [Video.wDet]) b 0
          < dictGet (classCountsOf [Video.wDet]) a 0 ∨
      (dictGet (classCountsOf [Video.wDet]) a 0
          = dictGet (classCountsOf [Video.wDet]) b 0 ∧ a < b))
      (legendNames [Video.wDet]) ∧
    (∀ a ∈ legendNames [Video.wDet],
      ∀ b ∈ (classCountsOf [Video.wDet]).map Prod.fst,
      b ∉ legendNames [Video.wDet] →
      dictGet (classCountsOf [Video.wDet]) b 0
        ≤ dictGet (classCountsOf [Video.wDet]) a 0) ∧
    ((draw_detections_bgr wExt [Img.base 0 100 200] 0 [Video.wDet]).1.getD
        (draw_detections_bgr wExt [Img.base 0 100 200] 0 [Video.wDet]).2
        default).spineTexts
      = (legendNames [Video.wDet]).map
          (fun n => n ++ ": " ++ toString (dictGet (classCountsOf [Video.wDet]) n 0)) ∧
    ((draw_detections_bgr wExt [Img.base 0 100 200] 0 [Video.wDet]).1.getD
        (draw_detections_bgr wExt [Img.base 0 100 200] 0 [Video.wDet]).2
        default).spineSwatches
      = (legendNames [Video.wDet]).map
          (fun n => dictGet (classColorsOf wExt [Video.wDet]) n (0, 0, 0)) :=
  C9_legend_top12 wExt [Img.base 0 100 200] 0 [Video.wDet]
    (List.cons_ne_nil _ _)

end Visualize
